import Mathlib

/-!
Verification of the NewTube backend core (src/bin/backend.rs, src/metadata.rs)
against its natural-language specification.

The Rust code is shallowly embedded: pure functions become Lean functions,
the lock-guarded cache becomes explicit state passing over an `ApiCache`
value, machine integers become `Nat` with an explicit `% 2^64` where wrap
matters, and fallible operations return `Option`.  Fields that no claim
inspects but that exist in the Rust structs (`extras: serde_json::Value`,
`fps: f64`) are carried as opaque `String`/`Int` payloads so that equality
stays decidable; they are only ever copied, never examined.

The `str` operations used by `parse_range_header` are modelled as
structural functions over `List Char` (the character data of a `String`) so
that every concrete instance evaluates inside the kernel.  Rust `str::trim`
removes Unicode whitespace while the model removes ASCII whitespace; all
claims concern ASCII header values, where the two agree.
-/

/-- ASCII whitespace test backing the model of Rust `str::trim`. -/
def isWsChar (c : Char) : Bool :=
  c = ' ' || c = '\t' || c = '\n' || c = '\r'

/-- Model of Rust `str::trim`: drop leading and trailing whitespace. -/
def rsTrim (l : List Char) : List Char :=
  ((l.dropWhile isWsChar).reverse.dropWhile isWsChar).reverse

/-- Model of Rust `str::split(sep)` for a one-character separator: the
maximal chunks between occurrences of `sep` (empty chunks included). -/
def rsSplit (sep : Char) : List Char → List (List Char)
  | [] => [[]]
  | c :: rest =>
    let r := rsSplit sep rest
    if c = sep then [] :: r
    else
      match r with
      | [] => [[c]]
      | h :: t => (c :: h) :: t

/-- Model of Rust `str::split_once(sep)`: split at the first occurrence of
`sep`, `none` when `sep` does not occur. -/
def rsSplitOnce (sep : Char) : List Char → Option (List Char × List Char)
  | [] => none
  | c :: rest =>
    if c = sep then some ([], rest)
    else (rsSplitOnce sep rest).map (fun p => (c :: p.1, p.2))

/-- Decimal value of an ASCII digit list, `none` when the list is empty or
contains a non-digit. -/
def digitsToNat? : List Char → Option Nat
  | [] => none
  | l => go l 0
where
  go : List Char → Nat → Option Nat
    | [], acc => some acc
    | c :: rest, acc =>
      if c.isDigit then go rest (acc * 10 + (c.toNat - 48)) else none

/-- Result of `u64::from_str` (used by `str::parse::<u64>()` in
`parse_range_header`): optional leading `+`, at least one ASCII digit,
value below `2^64`. -/
def parseU64 (l : List Char) : Option Nat :=
  let core := match l with
    | '+' :: rest => rest
    | other => other
  match digitsToNat? core with
  | some n => if n < 2 ^ 64 then some n else none
  | none => none

/-- The arm of `parse_range_header` that runs after `split_once('-')`
succeeded: `sStr` is the text before the dash, `eStr` the text after it
(backend.rs lines 1477-1498).  `size - 1` on `Nat` is Rust's
`size.saturating_sub(1)`. -/
def evalRangeParts (sStr eStr : List Char) (size : Nat) : Option (Nat × Nat) :=
  if sStr = [] then
    -- Suffix range: "-N" means last N bytes.
    match parseU64 eStr with
    | none => none
    | some suffixLen =>
      if suffixLen = 0 then none
      else if size ≤ suffixLen then some (0, size - 1)
      else some (size - suffixLen, size - 1)
  else
    match parseU64 sStr with
    | none => none
    | some s =>
      match (if eStr = [] then some (size - 1) else parseU64 eStr) with
      | none => none
      | some e => if e < s then none else some (s, e)

/-- `parse_range_header` from backend.rs (lines 1463-1499).  `none` models
Rust's `None`, i.e. the header is treated as absent. -/
def parse_range_header (value : String) (size : Nat) : Option (Nat × Nat) :=
  let value := rsTrim value.data
  match rsSplit '=' value with
  | [] => none
  | unitStr :: rest =>
    if rsTrim unitStr = "bytes".data then
      match rest with
      | [] => none
      | range :: _ =>
        let range := rsTrim range
        if range = [] then none
        else
          match rsSplitOnce '-' range with
          | none => none
          | some (sStr, eStr) => evalRangeParts sStr eStr size
    else none

/-- The observable part of the HTTP response produced by `stream_file`
(backend.rs lines 1378-1441): status code, `Content-Range`,
`Content-Length` and the body bytes.  Headers the claims never mention
(`Accept-Ranges`, `Content-Type`) are left out of the record. -/
structure FileResponse where
  status : Nat
  contentRange : Option String
  contentLength : Option Nat
  body : List Nat
deriving DecidableEq

/-- `stream_file` specialised to a file that opened successfully with
contents `content`; `rangeHeader` is the raw `Range` header value when one
was sent.  Mirrors backend.rs lines 1392-1429: parse the header against the
file size, answer 416 when the start lies beyond the file, otherwise clamp
the end and serve the window, and fall back to a 200 whole-file response
when no (valid) range was given. -/
def stream_file (content : List Nat) (rangeHeader : Option String) : FileResponse :=
  let size := content.length
  match rangeHeader.bind (fun h => parse_range_header h size) with
  | some (s, e) =>
    if size ≤ s then
      { status := 416
        contentRange := some ("bytes */" ++ Nat.repr size)
        contentLength := none
        body := [] }
    else
      let e2 := min e (size - 1)
      let len := e2 - s + 1
      { status := 206
        contentRange := some ("bytes " ++ Nat.repr s ++ "-" ++ Nat.repr e2 ++ "/" ++ Nat.repr size)
        contentLength := some len
        body := (content.drop s).take len }
  | none =>
    { status := 200, contentRange := none, contentLength := none, body := content }

/-- `VideoSource` from metadata.rs (lines 17-37).  `fps` is `Option<f64>` in
Rust; no claim reads it, so it is carried as an opaque `Option Int` to keep
equality decidable. -/
structure VideoSource where
  format_id : String
  quality_label : Option String
  width : Option Int
  height : Option Int
  fps : Option Int
  mime_type : Option String
  ext : Option String
  file_size : Option Int
  url : String
  path : Option String
deriving DecidableEq

/-- `VideoRecord` from metadata.rs (lines 42-76).  `extras` is an opaque
`serde_json::Value` in Rust; no claim reads it, so it is carried as its
serialized text. -/
structure VideoRecord where
  videoid : String
  title : String
  description : String
  likes : Option Int
  dislikes : Option Int
  views : Option Int
  upload_date : Option String
  author : Option String
  subscriber_count : Option Int
  duration : Option Int
  duration_text : Option String
  channel_url : Option String
  thumbnail_url : Option String
  tags : List String
  thumbnails : List String
  extras : String
  sources : List VideoSource
deriving DecidableEq

/-- `SubtitleTrack` from metadata.rs (lines 80-86). -/
structure SubtitleTrack where
  code : String
  name : String
  url : String
  path : Option String
deriving DecidableEq

/-- `SubtitleCollection` from metadata.rs (lines 89-94). -/
structure SubtitleCollection where
  videoid : String
  languages : List SubtitleTrack
deriving DecidableEq

/-- `CommentRecord` from metadata.rs (lines 97-115). -/
structure CommentRecord where
  id : String
  videoid : String
  author : String
  text : String
  likes : Option Int
  time_posted : Option String
  parent_comment_id : Option String
  status_likedbycreator : Bool
  reply_count : Option Int
deriving DecidableEq

/-- `MediaCategory` from backend.rs (lines 163-167). -/
inductive MediaCategory where
  | video
  | short
deriving DecidableEq

/-- The read-only `MetadataReader` interface consumed by the backend
(metadata.rs): one field per reader method, plus the SQLite change counter
(`PRAGMA data_version`, an `i64`) returned by `data_version()`. -/
structure Store where
  data_version : Int
  list_videos : List VideoRecord
  list_shorts : List VideoRecord
  get_video : String → Option VideoRecord
  get_short : String → Option VideoRecord
  get_comments : String → List CommentRecord
  get_subtitles : String → Option SubtitleCollection
  list_subtitles : List SubtitleCollection
  list_all_comments : List CommentRecord

/-- Dispatch between the videos and shorts list, as the handlers do. -/
def Store.listOf (s : Store) : MediaCategory → List VideoRecord
  | MediaCategory.video => s.list_videos
  | MediaCategory.short => s.list_shorts

/-- Dispatch between `get_video` and `get_short`. -/
def Store.getOf (s : Store) : MediaCategory → String → Option VideoRecord
  | MediaCategory.video => s.get_video
  | MediaCategory.short => s.get_short

/-- Association-list lookup standing in for `HashMap::get`: the most
recently inserted binding for a key wins. -/
def alistFind (l : List (String × α)) (k : String) : Option α :=
  match l with
  | [] => none
  | (k2, v) :: rest => if k2 = k then some v else alistFind rest k

/-- Association-list insert standing in for `HashMap::insert`. -/
def alistInsert (l : List (String × α)) (k : String) (v : α) : List (String × α) :=
  (k, v) :: l

/-- `BootstrapPayload` from backend.rs (lines 1102-1108). -/
structure BootstrapPayload where
  videos : List VideoRecord
  shorts : List VideoRecord
  subtitles : List SubtitleCollection
  comments : List CommentRecord
deriving DecidableEq

/-- `ApiCache` from backend.rs (lines 553-562): the per-category lists, the
two per-id detail indexes, the per-id comment and subtitle maps, the
bootstrap payload, and the last observed change counter.  The `RwLock`s
become plain fields; the `HashMap`s become association lists. -/
structure ApiCache where
  videos : Option (List VideoRecord)
  shorts : Option (List VideoRecord)
  video_details : List (String × VideoRecord)
  short_details : List (String × VideoRecord)
  comments : List (String × List CommentRecord)
  subtitles : List (String × SubtitleCollection)
  bootstrap : Option BootstrapPayload
  last_db_version : Option Int

/-- `ApiCache::new` (backend.rs lines 567-578). -/
def ApiCache.new : ApiCache :=
  { videos := none, shorts := none, video_details := [], short_details := []
    comments := [], subtitles := [], bootstrap := none, last_db_version := none }

/-- `ApiCache::media_list` read access (backend.rs lines 580-585). -/
def ApiCache.mediaList (c : ApiCache) : MediaCategory → Option (List VideoRecord)
  | MediaCategory.video => c.videos
  | MediaCategory.short => c.shorts

/-- Writing the list slot picked by `ApiCache::media_list`. -/
def ApiCache.setMediaList (c : ApiCache) (cat : MediaCategory) (v : List VideoRecord) : ApiCache :=
  match cat with
  | MediaCategory.video => { c with videos := some v }
  | MediaCategory.short => { c with shorts := some v }

/-- `ApiCache::media_details` read access (backend.rs lines 587-592). -/
def ApiCache.mediaDetails (c : ApiCache) : MediaCategory → List (String × VideoRecord)
  | MediaCategory.video => c.video_details
  | MediaCategory.short => c.short_details

/-- Writing the detail index picked by `ApiCache::media_details`. -/
def ApiCache.setMediaDetails (c : ApiCache) (cat : MediaCategory)
    (v : List (String × VideoRecord)) : ApiCache :=
  match cat with
  | MediaCategory.video => { c with video_details := v }
  | MediaCategory.short => { c with short_details := v }

/-- `ApiCache::clear` (backend.rs lines 594-603): empty every cached
structure; the last observed version is left untouched. -/
def ApiCache.clear (c : ApiCache) : ApiCache :=
  { videos := none, shorts := none, video_details := [], short_details := []
    comments := [], subtitles := [], bootstrap := none
    last_db_version := c.last_db_version }

/-- `sanitize_video_record` (backend.rs lines 1447-1453): blank out every
source's on-disk path. -/
def sanitize_video_record (record : VideoRecord) : VideoRecord :=
  { record with sources := record.sources.map (fun src => { src with path := none }) }

/-- `sanitize_video_records` (backend.rs lines 1443-1445). -/
def sanitize_video_records (records : List VideoRecord) : List VideoRecord :=
  records.map sanitize_video_record

/-- `sanitize_subtitle_collection` (backend.rs lines 1455-1461). -/
def sanitize_subtitle_collection (collection : SubtitleCollection) : SubtitleCollection :=
  { collection with
    languages := collection.languages.map (fun track => { track with path := none }) }

/-- `AppState::ensure_fresh_cache` (backend.rs lines 1111-1126): read the
store's change counter; clear the whole snapshot when it differs from the
last observed value; record the new value. -/
def ensure_fresh_cache (s : Store) (c : ApiCache) : ApiCache :=
  let c :=
    match c.last_db_version with
    | some previous => if s.data_version ≠ previous then c.clear else c
    | none => c
  { c with last_db_version := some s.data_version }

/-- `AppState::get_bootstrap` (backend.rs lines 1132-1171): freshness check,
cache hit, else build the sanitized payload from the store and memoize it. -/
def get_bootstrap (s : Store) (c : ApiCache) : BootstrapPayload × ApiCache :=
  let c := ensure_fresh_cache s c
  match c.bootstrap with
  | some cached => (cached, c)
  | none =>
    let payload : BootstrapPayload :=
      { videos := sanitize_video_records s.list_videos
        shorts := sanitize_video_records s.list_shorts
        subtitles := s.list_subtitles.map sanitize_subtitle_collection
        comments := s.list_all_comments }
    (payload, { c with bootstrap := some payload })

/-- `AppState::get_media_list` (backend.rs lines 1175-1205): freshness
check, cache hit, else query the store, memoize the list and back-fill the
per-id detail index. -/
def get_media_list (s : Store) (cat : MediaCategory) (c : ApiCache) :
    List VideoRecord × ApiCache :=
  let c := ensure_fresh_cache s c
  match c.mediaList cat with
  | some cached => (cached, c)
  | none =>
    let records := s.listOf cat
    let c := c.setMediaList cat records
    let details := records.foldl (fun d r => alistInsert d r.videoid r) (c.mediaDetails cat)
    (records, c.setMediaDetails cat details)

/-- `AppState::get_media` (backend.rs lines 1209-1242): freshness check,
detail-index hit, else query the store; a store miss is returned as
not-found (`none`) and nothing is inserted into the cache. -/
def get_media (s : Store) (cat : MediaCategory) (videoid : String) (c : ApiCache) :
    Option VideoRecord × ApiCache :=
  let c := ensure_fresh_cache s c
  match alistFind (c.mediaDetails cat) videoid with
  | some record => (some record, c)
  | none =>
    match s.getOf cat videoid with
    | none => (none, c)
    | some record =>
      (some record, c.setMediaDetails cat (alistInsert (c.mediaDetails cat) videoid record))

/-- `AppState::get_comments` (backend.rs lines 1246-1264). -/
def get_comments (s : Store) (videoid : String) (c : ApiCache) :
    List CommentRecord × ApiCache :=
  let c := ensure_fresh_cache s c
  match alistFind c.comments videoid with
  | some cached => (cached, c)
  | none =>
    let comments := s.get_comments videoid
    (comments, { c with comments := alistInsert c.comments videoid comments })

/-- `AppState::get_subtitles` (backend.rs lines 1268-1288): a store miss is
returned as `none` and is never cached. -/
def get_subtitles (s : Store) (videoid : String) (c : ApiCache) :
    Option SubtitleCollection × ApiCache :=
  let c := ensure_fresh_cache s c
  match alistFind c.subtitles videoid with
  | some cached => (some cached, c)
  | none =>
    match s.get_subtitles videoid with
    | none => (none, c)
    | some collection =>
      (some collection, { c with subtitles := alistInsert c.subtitles videoid collection })

/-- The `/api/videos` and `/api/shorts` list handlers (backend.rs lines
896-904): fetch through the cache, then sanitize. -/
def list_media_endpoint (s : Store) (cat : MediaCategory) (c : ApiCache) :
    List VideoRecord × ApiCache :=
  let (records, c) := get_media_list s cat c
  (sanitize_video_records records, c)

/-- The `/api/videos/{id}` and `/api/shorts/{id}` detail handlers
(backend.rs lines 906-920): fetch through the cache, then sanitize; `none`
is the 404 response. -/
def get_media_endpoint (s : Store) (cat : MediaCategory) (videoid : String) (c : ApiCache) :
    Option VideoRecord × ApiCache :=
  let (record, c) := get_media s cat videoid c
  (record.map sanitize_video_record, c)

/-- `DownloadStatus` from backend.rs (lines 257-263). -/
inductive DownloadStatus where
  | queued
  | running
  | success
  | failed
deriving DecidableEq

/-- `DownloadStatus::as_str` (backend.rs lines 265-274). -/
def DownloadStatus.as_str : DownloadStatus → String
  | DownloadStatus.queued => "queued"
  | DownloadStatus.running => "running"
  | DownloadStatus.success => "completed"
  | DownloadStatus.failed => "failed"

/-- Position of a status along the Queued → Running → terminal lifecycle. -/
def DownloadStatus.rank : DownloadStatus → Nat
  | DownloadStatus.queued => 0
  | DownloadStatus.running => 1
  | DownloadStatus.success => 2
  | DownloadStatus.failed => 2

/-- Whether a status is terminal (Success or Failed). -/
def DownloadStatus.isTerminal : DownloadStatus → Bool
  | DownloadStatus.success => true
  | DownloadStatus.failed => true
  | _ => false

/-- `DownloadJob` from backend.rs (lines 250-255); the progress-file path is
kept as the key under which the filesystem is consulted. -/
structure DownloadJob where
  id : String
  status : DownloadStatus
  progress_file : String
  message : String
deriving DecidableEq

/-- `ProgressReport` from backend.rs (lines 305-310); `progress` is a `u8`. -/
structure ProgressReport where
  progress : Nat
  message : String
deriving DecidableEq

/-- `DownloadJobStatus` from backend.rs (lines 282-289), the JSON body of
the job-status endpoint. -/
structure DownloadJobStatus where
  id : String
  status : String
  progress : Nat
  message : String
deriving DecidableEq

/-- `DownloadManager::get_status` (backend.rs lines 504-518).  `jobs` is
the lock-guarded job table; `readP` is the current filesystem content of
progress files as read by `read_progress_report` (`none` when the file is
missing or is not valid JSON).  Progress and message come from the fresh
file read when it parses, with `(0, job.message)` as the fallback. -/
def get_status (jobs : List (String × DownloadJob)) (readP : String → Option ProgressReport)
    (job_id : String) : Option DownloadJobStatus :=
  match alistFind jobs job_id with
  | none => none
  | some job =>
    let pm :=
      match readP job.progress_file with
      | some report => (report.progress, report.message)
      | none => (0, job.message)
    some { id := job.id, status := job.status.as_str, progress := pm.1, message := pm.2 }

/-- `ApiError` as produced at the HTTP boundary (backend.rs lines 645-667):
a status code plus a message. -/
structure ApiError where
  status : Nat
  message : String
deriving DecidableEq

/-- The `/api/downloads/{id}` handler `get_download_status` (backend.rs
lines 834-843): 404 when the manager knows no such job. -/
def get_download_status (jobs : List (String × DownloadJob))
    (readP : String → Option ProgressReport) (id : String) :
    Except ApiError DownloadJobStatus :=
  match get_status jobs readP id with
  | none => Except.error { status := 404, message := "download not found" }
  | some payload => Except.ok payload

/-- Value of the `AtomicUsize` job counter (backend.rs lines 243, 318, 521)
after `k` calls to `next_job_id`: it starts at 1 and each call does a
wrapping 64-bit `fetch_add(1)`. -/
def counterAfter : Nat → Nat
  | 0 => 1
  | k + 1 => (counterAfter k + 1) % 2 ^ 64

/-- Numeric part of the id returned by the `(k+1)`-th call to
`next_job_id`: `fetch_add` returns the pre-increment value. -/
def drawnIdNum (k : Nat) : Nat := counterAfter k

/-- Job id returned by the `(k+1)`-th call to `next_job_id` (backend.rs
lines 520-523): `format!("download-{id}")`. -/
def drawnId (k : Nat) : String := "download-" ++ Nat.repr (drawnIdNum k)

/-- Status updates performed, in order, by the task spawned by
`DownloadManager::start_video_download` (backend.rs lines 348-392), as a
function of the downloader run's outcome (`Ok` for exit 0, `Err` for a
non-zero exit, spawn failure or join error). -/
def videoJobUpdates (run : Except String Unit) : List DownloadStatus :=
  [DownloadStatus.running,
    match run with
    | Except.ok _ => DownloadStatus.success
    | Except.error _ => DownloadStatus.failed]

/-- Status updates performed, in order, by the task spawned by
`DownloadManager::start_channel_download` (backend.rs lines 423-499):
channel resolution failure goes straight to Failed, otherwise the
downloader run decides the terminal status. -/
def channelJobUpdates (resolution : Except String String) (run : Except String Unit) :
    List DownloadStatus :=
  match resolution with
  | Except.error _ => [DownloadStatus.running, DownloadStatus.failed]
  | Except.ok _ =>
    [DownloadStatus.running,
      match run with
      | Except.ok _ => DownloadStatus.success
      | Except.error _ => DownloadStatus.failed]

/-- Full status history of one job: jobs are inserted as Queued (backend.rs
lines 336-344, 411-419) and then mutated only by their owning task's
updates. -/
def jobHistory (updates : List DownloadStatus) : List DownloadStatus :=
  DownloadStatus.queued :: updates

/-- No status in the history ever steps backward, and a terminal status is
never followed by a different one. -/
def monotoneHistory (l : List DownloadStatus) : Prop :=
  List.Chain' (fun a b => a.rank ≤ b.rank) l ∧
    ∀ i j : Fin l.length, i ≤ j → (l.get i).isTerminal = true → l.get j = l.get i

/-- One row of the `videos`/`shorts` SQLite tables: the record plus its
`rowid`, which grows with insertion order. -/
structure VideoRow where
  rowid : Nat
  record : VideoRecord
deriving DecidableEq

/-- Lexicographic comparison of character lists by code point; on UTF-8
encoded text this agrees with SQLite's bytewise (memcmp) BINARY collation,
because UTF-8 preserves code-point order. -/
def listCharLt : List Char → List Char → Bool
  | [], [] => false
  | [], _ :: _ => true
  | _ :: _, [] => false
  | a :: as, b :: bs =>
    if a < b then true
    else if b < a then false
    else listCharLt as bs

/-- SQLite comparison of an `upload_date` column value under the BINARY
collation: `NULL` sorts below every text value, and text sorts bytewise. -/
def sqliteDateLt (a b : Option String) : Prop :=
  match a, b with
  | none, none => False
  | none, some _ => True
  | some _, none => False
  | some x, some y => listCharLt x.data y.data = true

instance (a b : Option String) : Decidable (sqliteDateLt a b) := by
  unfold sqliteDateLt
  match a, b with
  | none, none => exact inferInstance
  | none, some _ => exact inferInstance
  | some _, none => exact inferInstance
  | some x, some y => exact inferInstance

/-- Row `a` may precede row `b` in the output of
`ORDER BY upload_date DESC, rowid DESC` (metadata.rs line 573): `a`'s
upload date is strictly larger, or the dates are equal and `a`'s rowid is
at least `b`'s. -/
def fetchRowOrder (a b : VideoRow) : Prop :=
  sqliteDateLt b.record.upload_date a.record.upload_date ∨
    (a.record.upload_date = b.record.upload_date ∧ b.rowid ≤ a.rowid)

instance : DecidableRel fetchRowOrder := fun a b => by
  unfold fetchRowOrder
  exact inferInstance

/-- `MetadataReader::fetch_videos_from` (metadata.rs lines 563-584): the
rows of the table, ordered by `upload_date DESC, rowid DESC`, mapped to
their records.  Any sort realizing the `ORDER BY` contract is a faithful
model; insertion sort is used because it evaluates inside the kernel. -/
def fetch_videos_from (rows : List VideoRow) : List VideoRecord :=
  (List.insertionSort fetchRowOrder rows).map VideoRow.record

/-- The ordering the spec sentence describes, written out for comparison:
newest upload date first but with the *insertion order* (`rowid`
ascending) as the tiebreak. -/
def claimedRowOrder (a b : VideoRow) : Prop :=
  sqliteDateLt b.record.upload_date a.record.upload_date ∨
    (a.record.upload_date = b.record.upload_date ∧ a.rowid ≤ b.rowid)

instance : DecidableRel claimedRowOrder := fun a b => by
  unfold claimedRowOrder
  exact inferInstance

/-- The listing the spec sentence describes: sorted with the
insertion-order tiebreak. -/
def claimed_videos_listing (rows : List VideoRow) : List VideoRecord :=
  (List.insertionSort claimedRowOrder rows).map VideoRow.record

/-- Concrete store used to instantiate theorems with hypotheses. -/
def sampleRecord (id : String) : VideoRecord :=
  { videoid := id, title := "Video " ++ id, description := "", likes := none
    dislikes := none, views := none, upload_date := some "2024-01-01"
    author := none, subscriber_count := none, duration := none
    duration_text := none, channel_url := none, thumbnail_url := none
    tags := [], thumbnails := [], extras := "null", sources := [] }

/-- Big-endian decimal digit characters of `n`; reference rendering used to
reason about `Nat.repr`. -/
def natChars (n : Nat) : List Char :=
  if _ : n < 10 then [Nat.digitChar n]
  else natChars (n / 10) ++ [Nat.digitChar (n % 10)]
decreasing_by exact Nat.div_lt_self (by omega) (by omega)

/-- Numeric value of an ASCII digit character. -/
def decDigit (c : Char) : Nat := c.toNat - 48

/-- Decimal value of a digit-character list. -/
def decValue (l : List Char) : Nat := l.foldl (fun a c => a * 10 + decDigit c) 0

/-- Every video record in the payload has all source paths blanked and
every subtitle track in the payload has its path blanked. -/
def payloadSanitized (p : BootstrapPayload) : Prop :=
  (∀ r ∈ p.videos, ∀ src ∈ r.sources, src.path = none) ∧
  (∀ r ∈ p.shorts, ∀ src ∈ r.sources, src.path = none) ∧
  (∀ col ∈ p.subtitles, ∀ t ∈ col.languages, t.path = none)

/-- Cache invariant: whenever a bootstrap payload is memoized it is
sanitized.  The other cached structures hold raw store records but every
handler sanitizes them on the way out. -/
def cacheSanitized (c : ApiCache) : Prop :=
  ∀ p, c.bootstrap = some p → payloadSanitized p

/-- A byte-level stand-in for a 1000-byte file. -/
def thousandBytes : List Nat := List.replicate 1000 0

/-- A 10-byte file with recognizable contents. -/
def tenBytes : List Nat := [0, 1, 2, 3, 4, 5, 6, 7, 8, 9]

/-- Concrete job record used to instantiate the job-status theorems. -/
def c5job : DownloadJob :=
  { id := "download-1", status := DownloadStatus.queued
    progress_file := "downloads/download-1.json", message := "Queued" }

/-- Concrete store used to instantiate the cache theorems: change counter 5,
one video, no shorts, empty per-id reads. -/
def wStore : Store :=
  { data_version := 5
    list_videos := [sampleRecord "a"]
    list_shorts := []
    get_video := fun _ => none
    get_short := fun _ => none
    get_comments := fun _ => []
    get_subtitles := fun _ => none
    list_subtitles := []
    list_all_comments := [] }

/-- A store with the same change counter as `wStore` but where id `b` now
resolves, used for the no-negative-caching theorem. -/
def wStore2 : Store :=
  { data_version := 5
    list_videos := [sampleRecord "a", sampleRecord "b"]
    list_shorts := []
    get_video := fun id => if id = "b" then some (sampleRecord "b") else none
    get_short := fun _ => none
    get_comments := fun _ => []
    get_subtitles := fun id =>
      if id = "b" then some { videoid := "b", languages := [] } else none
    list_subtitles := []
    list_all_comments := [] }

/-- A cache still holding a snapshot observed at change-counter value 4. -/
def wCache : ApiCache :=
  { videos := some [sampleRecord "stale"]
    shorts := some []
    video_details := [("stale", sampleRecord "stale")]
    short_details := []
    comments := [("stale", [])]
    subtitles := []
    bootstrap := none
    last_db_version := some 4 }

/-- Two rows sharing an upload date: rowid 1 was inserted first. -/
def c8rows : List VideoRow :=
  [{ rowid := 1, record := sampleRecord "first" },
   { rowid := 2, record := sampleRecord "second" }]

/-- A source that records an on-disk location, as stored by the downloader. -/
def pathSource : VideoSource :=
  { format_id := "1080p", quality_label := none, width := none, height := none
    fps := none, mime_type := none, ext := none, file_size := none
    url := "/api/videos/p/streams/1080p", path := some "/yt/videos/p/secret.mp4" }

/-- A store whose records carry on-disk paths, for the sanitization claim. -/
def wStoreP : Store :=
  { data_version := 9
    list_videos := [{ sampleRecord "p" with sources := [pathSource] }]
    list_shorts := []
    get_video := fun id =>
      if id = "p" then some { sampleRecord "p" with sources := [pathSource] } else none
    get_short := fun _ => none
    get_comments := fun _ => []
    get_subtitles := fun _ => none
    list_subtitles := [{ videoid := "p"
                         languages := [{ code := "en", name := "English", url := "/u"
                                         path := some "/yt/subtitles/p/en.vtt" }] }]
    list_all_comments := [] }

theorem decValue_append_digit (l : List Char) (c : Char) :
    decValue (l ++ [c]) = decValue l * 10 + decDigit c := by
  simp [decValue, List.foldl_append]

theorem decDigit_digitChar : ∀ k, k < 10 → decDigit (Nat.digitChar k) = k := by decide

theorem decValue_natChars : ∀ n, decValue (natChars n) = n := by
  intro n
  induction n using Nat.strong_induction_on with
  | _ n ih =>
    by_cases h : n < 10
    · rw [natChars]
      simp [h, decValue, decDigit_digitChar n h]
    · rw [natChars]
      simp only [h, dite_false]
      rw [decValue_append_digit, ih (n / 10) (Nat.div_lt_self (by omega) (by omega))]
      have hd := decDigit_digitChar (n % 10) (by omega)
      omega

theorem toDigitsCore_eq_natChars :
    ∀ (fuel n : Nat) (ds : List Char), 0 < fuel → n < 10 ^ fuel →
      Nat.toDigitsCore 10 fuel n ds = natChars n ++ ds := by
  intro fuel
  induction fuel with
  | zero => intro n ds h hlt; omega
  | succ f ih =>
    intro n ds _ hlt
    rw [Nat.toDigitsCore]
    by_cases h0 : n / 10 = 0
    · have hn : n < 10 := by omega
      have hmod : n % 10 = n := by omega
      simp [h0, natChars, hn, hmod]
    · have hf : 0 < f := by
        rcases Nat.eq_zero_or_pos f with hf0 | hf0
        · subst hf0; simp at hlt; omega
        · exact hf0
      have hlt2 : n / 10 < 10 ^ f := by
        have hp : 10 ^ (f + 1) = 10 ^ f * 10 := by rw [pow_succ]
        refine (Nat.div_lt_iff_lt_mul (by omega)).mpr ?_
        omega
      simp only [h0, if_false]
      rw [ih (n / 10) (Nat.digitChar (n % 10) :: ds) hf hlt2]
      have hrw : natChars n = natChars (n / 10) ++ [Nat.digitChar (n % 10)] := by
        rw [natChars]; simp [show ¬ n < 10 by omega]
      rw [hrw, List.append_assoc]
      rfl

theorem toDigits_eq_natChars (n : Nat) : Nat.toDigits 10 n = natChars n := by
  have h1 : n < 10 ^ (n + 1) :=
    lt_of_lt_of_le (Nat.lt_pow_self (by omega) n) (Nat.pow_le_pow_right (by omega) (by omega))
  have h2 := toDigitsCore_eq_natChars (n + 1) n [] (by omega) h1
  unfold Nat.toDigits
  rw [h2]
  simp

theorem natRepr_data (n : Nat) : (Nat.repr n).data = Nat.toDigits 10 n := rfl

theorem natRepr_injective : Function.Injective Nat.repr := by
  intro m n h
  have hd : Nat.toDigits 10 m = Nat.toDigits 10 n := by
    have := congrArg String.data h
    rwa [natRepr_data, natRepr_data] at this
  rw [toDigits_eq_natChars, toDigits_eq_natChars] at hd
  have hv := congrArg decValue hd
  rwa [decValue_natChars, decValue_natChars] at hv

theorem download_format_injective (m n : Nat)
    (h : ("download-" ++ Nat.repr m : String) = "download-" ++ Nat.repr n) : m = n := by
  apply natRepr_injective
  have hd := congrArg String.data h
  rw [String.data_append, String.data_append] at hd
  have h2 := List.append_cancel_left hd
  calc Nat.repr m = String.mk (Nat.repr m).data := rfl
  _ = String.mk (Nat.repr n).data := by rw [h2]
  _ = Nat.repr n := rfl

theorem counterAfter_eq (k : Nat) (hk : k < 2 ^ 64 - 1) : counterAfter k = 1 + k := by
  induction k with
  | zero => rfl
  | succ m ih =>
    have hm : m < 2 ^ 64 - 1 := by omega
    have hlt : 1 + m + 1 < 2 ^ 64 := by omega
    rw [counterAfter, ih hm, Nat.mod_eq_of_lt hlt]
    omega

theorem listCharLt_trans : ∀ {a b c : List Char},
    listCharLt a b = true → listCharLt b c = true → listCharLt a c = true := by
  intro a
  induction a with
  | nil =>
    intro b c hab hbc
    cases b with
    | nil => simp [listCharLt] at hab
    | cons y ys =>
      cases c with
      | nil => simp [listCharLt] at hbc
      | cons z zs => simp [listCharLt]
  | cons x xs ih =>
    intro b c hab hbc
    cases b with
    | nil => simp [listCharLt] at hab
    | cons y ys =>
      cases c with
      | nil => simp [listCharLt] at hbc
      | cons z zs =>
        simp only [listCharLt] at hab hbc ⊢
        by_cases hxy : x < y
        · by_cases hyz : y < z
          · simp [lt_trans hxy hyz]
          · by_cases hzy : z < y
            · simp [hyz, hzy] at hbc
            · have hyzeq : y = z := le_antisymm (not_lt.mp hzy) (not_lt.mp hyz)
              subst hyzeq
              simp [hxy]
        · by_cases hyx : y < x
          · simp [hxy, hyx] at hab
          · have hxyeq : x = y := le_antisymm (not_lt.mp hyx) (not_lt.mp hxy)
            subst hxyeq
            simp only [lt_irrefl, if_false] at hab
            by_cases hyz : x < z
            · simp [hyz]
            · by_cases hzy : z < x
              · simp [hyz, hzy] at hbc
              · have hyzeq : x = z := le_antisymm (not_lt.mp hzy) (not_lt.mp hyz)
                subst hyzeq
                simp only [lt_irrefl, if_false] at hbc ⊢
                exact ih hab hbc

theorem listCharLt_trichotomy : ∀ (a b : List Char),
    listCharLt a b = true ∨ a = b ∨ listCharLt b a = true := by
  intro a
  induction a with
  | nil =>
    intro b
    cases b with
    | nil => exact Or.inr (Or.inl rfl)
    | cons y ys => exact Or.inl (by simp [listCharLt])
  | cons x xs ih =>
    intro b
    cases b with
    | nil => exact Or.inr (Or.inr (by simp [listCharLt]))
    | cons y ys =>
      rcases lt_trichotomy x y with h | h | h
      · exact Or.inl (by simp [listCharLt, h])
      · subst h
        rcases ih ys with h2 | h2 | h2
        · exact Or.inl (by simp [listCharLt, h2])
        · exact Or.inr (Or.inl (by rw [h2]))
        · exact Or.inr (Or.inr (by simp [listCharLt, h2]))
      · exact Or.inr (Or.inr (by simp [listCharLt, h]))

theorem stringData_inj {x y : String} (h : x.data = y.data) : x = y := by
  calc x = String.mk x.data := rfl
  _ = String.mk y.data := by rw [h]
  _ = y := rfl

theorem sqliteDateLt_trans {a b c : Option String}
    (h1 : sqliteDateLt a b) (h2 : sqliteDateLt b c) : sqliteDateLt a c := by
  cases a <;> cases b <;> cases c <;> simp_all [sqliteDateLt]
  exact listCharLt_trans h1 h2

theorem sqliteDateLt_total (a b : Option String) :
    sqliteDateLt a b ∨ a = b ∨ sqliteDateLt b a := by
  cases a with
  | none =>
    cases b with
    | none => exact Or.inr (Or.inl rfl)
    | some y => exact Or.inl trivial
  | some x =>
    cases b with
    | none => exact Or.inr (Or.inr trivial)
    | some y =>
      rcases listCharLt_trichotomy x.data y.data with h | h | h
      · exact Or.inl h
      · exact Or.inr (Or.inl (by rw [stringData_inj h]))
      · exact Or.inr (Or.inr h)

instance : IsTrans VideoRow fetchRowOrder where
  trans a b c hab hbc := by
    unfold fetchRowOrder at *
    rcases hab with h1 | ⟨he1, hr1⟩ <;> rcases hbc with h2 | ⟨he2, hr2⟩
    · exact Or.inl (sqliteDateLt_trans h2 h1)
    · exact Or.inl (he2 ▸ h1)
    · exact Or.inl (he1 ▸ h2)
    · exact Or.inr ⟨he1.trans he2, le_trans hr2 hr1⟩

instance : IsTotal VideoRow fetchRowOrder where
  total a b := by
    unfold fetchRowOrder
    rcases sqliteDateLt_total a.record.upload_date b.record.upload_date with h | h | h
    · exact Or.inr (Or.inl h)
    · rcases le_total a.rowid b.rowid with hr | hr
      · exact Or.inr (Or.inr ⟨h.symm, hr⟩)
      · exact Or.inl (Or.inr ⟨h, hr⟩)
    · exact Or.inl (Or.inl h)

theorem stream_file_parse_some (content : List Nat) (h : String) (s e : Nat)
    (hp : parse_range_header h content.length = some (s, e)) :
    stream_file content (some h) =
      if content.length ≤ s then
        { status := 416
          contentRange := some ("bytes */" ++ Nat.repr content.length)
          contentLength := none
          body := [] }
      else
        { status := 206
          contentRange := some ("bytes " ++ Nat.repr s ++ "-" ++
            Nat.repr (min e (content.length - 1)) ++ "/" ++ Nat.repr content.length)
          contentLength := some (min e (content.length - 1) - s + 1)
          body := (content.drop s).take (min e (content.length - 1) - s + 1) } := by
  simp only [stream_file, Option.some_bind, hp]

theorem stream_file_parse_none (content : List Nat) (h : String)
    (hp : parse_range_header h content.length = none) :
    stream_file content (some h) =
      { status := 200, contentRange := none, contentLength := none, body := content } := by
  simp only [stream_file, Option.some_bind, hp]

theorem stream_file_no_header (content : List Nat) :
    stream_file content none =
      { status := 200, contentRange := none, contentLength := none, body := content } := by
  simp only [stream_file, Option.none_bind]

/-- C2 (counterexample): on a 1000-byte file, the open-ended range
`bytes=5000-` does not lead to a 416 response.  The parser substitutes
`size - 1 = 999` for the missing end, hits the `end < start` rejection, and
returns `None`; the header is therefore treated as absent and the response
is the plain 200 whole-file response. -/
theorem open_range_past_eof_is_200 :
    parse_range_header "bytes=5000-" 1000 = none ∧
    stream_file thousandBytes (some "bytes=5000-") =
      { status := 200, contentRange := none, contentLength := none, body := thousandBytes } ∧
    (stream_file thousandBytes (some "bytes=5000-")).status ≠ 416 := by
  have hlen : thousandBytes.length = 1000 := by unfold thousandBytes; rw [List.length_replicate]
  have hp : parse_range_header "bytes=5000-" thousandBytes.length = none := by
    rw [hlen]; decide
  have hmain := stream_file_parse_none thousandBytes "bytes=5000-" hp
  exact ⟨by decide, hmain, by rw [hmain]; decide⟩

/-- C2 (amended): the unit must be literally `bytes`; the forms
`start-end`, `start-` and `-suffixLen` are supported with `end < start`
rejected, a zero suffix treated as absent and `suffixLen >= size` yielding
the whole file; `bytes=0-99`, `bytes=900-` and `bytes=-50` on a 1000-byte
file parse as the claim states, but `bytes=5000-` is rejected as malformed
(999 < 5000) and produces the 200 whole-file response rather than a 416. -/
theorem range_parsing_semantics :
    (∀ (value : String) (size s e : Nat), parse_range_header value size = some (s, e) →
      ((rsSplit '=' (rsTrim value.data)).head?.map rsTrim) = some "bytes".data) ∧
    (∀ (sStr eStr : List Char) (a b size : Nat), sStr ≠ [] → parseU64 sStr = some a →
      parseU64 eStr = some b →
      evalRangeParts sStr eStr size = if b < a then none else some (a, b)) ∧
    (∀ (sStr : List Char) (a size : Nat), sStr ≠ [] → parseU64 sStr = some a →
      evalRangeParts sStr [] size = if size - 1 < a then none else some (a, size - 1)) ∧
    (∀ (eStr : List Char) (n size : Nat), parseU64 eStr = some n →
      evalRangeParts [] eStr size =
        if n = 0 then none
        else if size ≤ n then some (0, size - 1)
        else some (size - n, size - 1)) ∧
    parse_range_header "bytes=0-99" 1000 = some (0, 99) ∧
    parse_range_header "bytes=900-" 1000 = some (900, 999) ∧
    parse_range_header "bytes=-50" 1000 = some (950, 999) ∧
    parse_range_header "bytes=5000-" 1000 = none ∧
    (stream_file thousandBytes (some "bytes=5000-")).status = 200 := by
  have hlen : thousandBytes.length = 1000 := by unfold thousandBytes; rw [List.length_replicate]
  have hp : parse_range_header "bytes=5000-" thousandBytes.length = none := by
    rw [hlen]; decide
  have hmain := stream_file_parse_none thousandBytes "bytes=5000-" hp
  refine ⟨?_, ?_, ?_, ?_, by decide, by decide, by decide, by decide, by rw [hmain]⟩
  · intro value size s e h
    simp only [parse_range_header] at h
    cases hsplit : rsSplit '=' (rsTrim value.data) with
    | nil => rw [hsplit] at h; simp at h
    | cons u rest =>
      rw [hsplit] at h
      by_cases hu : rsTrim u = "bytes".data
      · simp [hu]
      · simp [hu] at h
  · intro sStr eStr a b size hne ha hb
    have he : eStr ≠ [] := by
      intro hcontra
      subst hcontra
      simp [parseU64, digitsToNat?] at hb
    simp [evalRangeParts, hne, ha, he, hb]
  · intro sStr a size hne ha
    simp [evalRangeParts, hne, ha]
  · intro eStr n size hn
    simp [evalRangeParts, hn]

/-- C2 (witness for the amended theorem): concrete instances of the
start-end branch. -/
theorem range_parsing_semantics_witness :
    evalRangeParts ['7'] ['9'] 20 = some (7, 9) := by
  have h := range_parsing_semantics.2.1 (['7']) (['9']) 7 9 20 (by decide) (by decide) (by decide)
  exact h.trans (by decide)

/-- C3: for a file served with a parsed range `(s, e)`: when `s` is at or
past the file size the response is 416 with `Content-Range: bytes */size`
and an empty body; otherwise `e` is clamped to `size - 1` and the response
is 206 with `Content-Range: bytes s-e/size`, `Content-Length = e - s + 1`,
and a body that is exactly that byte window of the file. -/
theorem stream_file_range_semantics (content : List Nat) (h : String) (s e : Nat)
    (hp : parse_range_header h content.length = some (s, e)) :
    (content.length ≤ s →
      stream_file content (some h) =
        { status := 416
          contentRange := some ("bytes */" ++ Nat.repr content.length)
          contentLength := none
          body := [] }) ∧
    (s < content.length →
      stream_file content (some h) =
        { status := 206
          contentRange := some ("bytes " ++ Nat.repr s ++ "-" ++
            Nat.repr (min e (content.length - 1)) ++ "/" ++ Nat.repr content.length)
          contentLength := some (min e (content.length - 1) - s + 1)
          body := (content.drop s).take (min e (content.length - 1) - s + 1) } ∧
      (stream_file content (some h)).body.length = min e (content.length - 1) - s + 1 ∧
      (∀ i, i < min e (content.length - 1) - s + 1 →
        (stream_file content (some h)).body[i]? = content[s + i]?)) := by
  have hmain := stream_file_parse_some content h s e hp
  constructor
  · intro hle
    rw [hmain, if_pos hle]
  · intro hlt
    have hnle : ¬ content.length ≤ s := by omega
    rw [hmain, if_neg hnle]
    refine ⟨rfl, ?_, ?_⟩
    · have hm : min e (content.length - 1) ≤ content.length - 1 := min_le_right _ _
      simp only [List.length_take, List.length_drop]
      omega
    · intro i hi
      simp only [List.getElem?_take, List.getElem?_drop, hi, if_pos]

/-- C3 (witness): `bytes=0-3` against a 10-byte file gives 206,
`Content-Range: bytes 0-3/10`, `Content-Length` 4 and the first four
bytes as body. -/
theorem stream_file_range_semantics_witness :
    parse_range_header "bytes=0-3" tenBytes.length = some (0, 3) ∧
    stream_file tenBytes (some "bytes=0-3") =
      { status := 206, contentRange := some "bytes 0-3/10"
        contentLength := some 4, body := [0, 1, 2, 3] } := by
  refine ⟨by decide, ?_⟩
  have h := (stream_file_range_semantics tenBytes "bytes=0-3" 0 3 (by decide)).2 (by decide)
  exact h.1.trans (by decide)

/-- C9: a malformed Range header (wrong unit, empty range spec, unparsable
numbers, or a zero suffix length) is silently treated as absent: the
response equals the no-header whole-file 200 response, never an error. -/
theorem malformed_range_degrades_to_200 (content : List Nat) (h : String)
    (hp : parse_range_header h content.length = none) :
    stream_file content (some h) = stream_file content none ∧
    (stream_file content (some h)).status = 200 ∧
    (stream_file content (some h)).body = content ∧
    parse_range_header "octets=0-99" 1000 = none ∧
    parse_range_header "bytes=" 1000 = none ∧
    parse_range_header "bytes=a-b" 1000 = none ∧
    parse_range_header "bytes=-0" 1000 = none := by
  have h1 := stream_file_parse_none content h hp
  have h2 := stream_file_no_header content
  exact ⟨h1.trans h2.symm, by rw [h1], by rw [h1],
    by decide, by decide, by decide, by decide⟩

/-- C9 (witness): a wrong-unit header on the 10-byte file. -/
theorem malformed_range_degrades_to_200_witness :
    parse_range_header "octets=0-3" tenBytes.length = none ∧
    stream_file tenBytes (some "octets=0-3") = stream_file tenBytes none ∧
    (stream_file tenBytes (some "octets=0-3")).status = 200 := by
  have h := malformed_range_degrades_to_200 tenBytes "octets=0-3" (by decide)
  exact ⟨by decide, h.1, h.2.1⟩

theorem ensure_fresh_cache_changed (s : Store) (c : ApiCache) (prev : Int)
    (h1 : c.last_db_version = some prev) (h2 : s.data_version ≠ prev) :
    ensure_fresh_cache s c = { ApiCache.new with last_db_version := some s.data_version } := by
  simp [ensure_fresh_cache, h1, h2, ApiCache.clear, ApiCache.new]

theorem ensure_fresh_cache_same (s : Store) (c : ApiCache)
    (h : c.last_db_version = some s.data_version) : ensure_fresh_cache s c = c := by
  cases c
  simp_all [ensure_fresh_cache]

theorem ensure_fresh_last (s : Store) (c : ApiCache) :
    (ensure_fresh_cache s c).last_db_version = some s.data_version := rfl

/-- C1: every cache operation first consults the change counter; when it
differs from the last observed value the entire snapshot is cleared and the
new value recorded before anything is served or populated, so each
operation's first result after a version change is computed from the store
alone, independent of all previously cached contents. -/
theorem cache_version_change_no_stale (s : Store) (c : ApiCache) (prev : Int)
    (hprev : c.last_db_version = some prev) (hne : s.data_version ≠ prev) :
    ensure_fresh_cache s c = { ApiCache.new with last_db_version := some s.data_version } ∧
    (get_bootstrap s c).1 =
      { videos := sanitize_video_records s.list_videos
        shorts := sanitize_video_records s.list_shorts
        subtitles := s.list_subtitles.map sanitize_subtitle_collection
        comments := s.list_all_comments } ∧
    (∀ cat, (get_media_list s cat c).1 = s.listOf cat) ∧
    (∀ cat id, (get_media s cat id c).1 = s.getOf cat id) ∧
    (∀ id, (get_comments s id c).1 = s.get_comments id) ∧
    (∀ id, (get_subtitles s id c).1 = s.get_subtitles id) := by
  have hfresh := ensure_fresh_cache_changed s c prev hprev hne
  refine ⟨hfresh, ?_, ?_, ?_, ?_, ?_⟩
  · simp [get_bootstrap, hfresh, ApiCache.new]
  · intro cat
    simp only [get_media_list, hfresh]
    cases cat <;> simp [ApiCache.mediaList, ApiCache.new]
  · intro cat id
    simp only [get_media, hfresh]
    cases hg : s.getOf cat id <;>
      cases cat <;>
        simp_all [ApiCache.mediaDetails, ApiCache.new, alistFind, Store.getOf]
  · intro id
    simp [get_comments, hfresh, ApiCache.new, alistFind]
  · intro id
    cases hg : s.get_subtitles id <;>
      simp_all [get_subtitles, hfresh, ApiCache.new, alistFind]

/-- C1 (witness): store at version 5 against a cache that observed
version 4 and still holds stale entries. -/
theorem cache_version_change_no_stale_witness :
    wCache.last_db_version = some 4 ∧ wStore.data_version ≠ 4 ∧
    (get_media_list wStore MediaCategory.video wCache).1 =
      wStore.listOf MediaCategory.video ∧
    (get_bootstrap wStore wCache).1 =
      { videos := sanitize_video_records wStore.list_videos
        shorts := sanitize_video_records wStore.list_shorts
        subtitles := wStore.list_subtitles.map sanitize_subtitle_collection
        comments := wStore.list_all_comments } := by
  have h := cache_version_change_no_stale wStore wCache 4 rfl (by decide)
  exact ⟨rfl, by decide, h.2.2.1 MediaCategory.video, h.2.1⟩

/-- C4: when the store has no record for a media-detail or subtitles
lookup, the cache layer answers not-found (`none`), inserts nothing, and a
later lookup against a store (at the same change-counter value) that now
has the record observes it immediately — there is no negative caching. -/
theorem no_negative_caching (s s2 : Store) (c : ApiCache) (cat : MediaCategory)
    (id : String) (r : VideoRecord) (col : SubtitleCollection)
    (hv : s2.data_version = s.data_version)
    (hm : (get_media s cat id c).1 = none)
    (hsub : (get_subtitles s id c).1 = none)
    (hr : s2.getOf cat id = some r)
    (hcol : s2.get_subtitles id = some col) :
    (get_media s cat id c).2 = ensure_fresh_cache s c ∧
    (get_subtitles s id c).2 = ensure_fresh_cache s c ∧
    (get_media s2 cat id (get_media s cat id c).2).1 = some r ∧
    (get_subtitles s2 id (get_subtitles s id c).2).1 = some col := by
  have hsame2 : ∀ c1 : ApiCache, c1 = ensure_fresh_cache s c →
      ensure_fresh_cache s2 c1 = c1 := by
    intro c1 hc1
    exact ensure_fresh_cache_same s2 c1 (by rw [hc1, ensure_fresh_last, hv])
  have hfind : alistFind ((ensure_fresh_cache s c).mediaDetails cat) id = none := by
    cases hx : alistFind ((ensure_fresh_cache s c).mediaDetails cat) id with
    | none => rfl
    | some rec =>
      simp only [get_media] at hm
      rw [hx] at hm
      simp at hm
  have hgetm : s.getOf cat id = none := by
    cases hx : s.getOf cat id with
    | none => rfl
    | some rec =>
      simp only [get_media] at hm
      rw [hfind, hx] at hm
      simp at hm
  have hm2 : get_media s cat id c = (none, ensure_fresh_cache s c) := by
    simp only [get_media]
    rw [hfind, hgetm]
  have hfinds : alistFind (ensure_fresh_cache s c).subtitles id = none := by
    cases hx : alistFind (ensure_fresh_cache s c).subtitles id with
    | none => rfl
    | some colx =>
      simp only [get_subtitles] at hsub
      rw [hx] at hsub
      simp at hsub
  have hgets : s.get_subtitles id = none := by
    cases hx : s.get_subtitles id with
    | none => rfl
    | some colx =>
      simp only [get_subtitles] at hsub
      rw [hfinds, hx] at hsub
      simp at hsub
  have hs2 : get_subtitles s id c = (none, ensure_fresh_cache s c) := by
    simp only [get_subtitles]
    rw [hfinds, hgets]
  refine ⟨by rw [hm2], by rw [hs2], ?_, ?_⟩
  · rw [hm2]
    simp only [get_media]
    rw [hsame2 _ rfl, hfind, hr]
  · rw [hs2]
    simp only [get_subtitles]
    rw [hsame2 _ rfl, hfinds, hcol]

/-- C4 (witness): id `b` is absent from `wStore`, present in `wStore2` at
the same change-counter value; the second lookup sees it. -/
theorem no_negative_caching_witness :
    (get_media wStore MediaCategory.video "b" ApiCache.new).1 = none ∧
    (get_media wStore2 MediaCategory.video "b"
      (get_media wStore MediaCategory.video "b" ApiCache.new).2).1 =
        some (sampleRecord "b") ∧
    (get_subtitles wStore2 "b" (get_subtitles wStore "b" ApiCache.new).2).1 =
      some { videoid := "b", languages := [] } := by
  have h := no_negative_caching wStore wStore2 ApiCache.new MediaCategory.video "b"
    (sampleRecord "b") { videoid := "b", languages := [] }
    rfl rfl rfl (by decide) rfl
  exact ⟨rfl, h.2.2.1, h.2.2.2⟩

theorem sanitize_video_record_hides_paths (r : VideoRecord) :
    ∀ src ∈ (sanitize_video_record r).sources, src.path = none := by
  intro src hsrc
  simp only [sanitize_video_record, List.mem_map] at hsrc
  obtain ⟨x, _, rfl⟩ := hsrc
  rfl

theorem sanitize_video_records_hide_paths (l : List VideoRecord) :
    ∀ rec ∈ sanitize_video_records l, ∀ src ∈ rec.sources, src.path = none := by
  intro rec hrec
  simp only [sanitize_video_records, List.mem_map] at hrec
  obtain ⟨x, _, rfl⟩ := hrec
  exact sanitize_video_record_hides_paths x

theorem sanitize_subtitle_collection_hides_paths (col : SubtitleCollection) :
    ∀ t ∈ (sanitize_subtitle_collection col).languages, t.path = none := by
  intro t ht
  simp only [sanitize_subtitle_collection, List.mem_map] at ht
  obtain ⟨x, _, rfl⟩ := ht
  rfl

theorem cacheSanitized_of_bootstrap_eq (c1 c2 : ApiCache)
    (h : c1.bootstrap = c2.bootstrap) (h2 : cacheSanitized c2) : cacheSanitized c1 :=
  fun p hp => h2 p (h ▸ hp)

theorem ensure_fresh_bootstrap (s : Store) (c : ApiCache) :
    (ensure_fresh_cache s c).bootstrap = c.bootstrap ∨
      (ensure_fresh_cache s c).bootstrap = none := by
  unfold ensure_fresh_cache
  cases h : c.last_db_version with
  | none => exact Or.inl rfl
  | some prev =>
    by_cases hne : s.data_version ≠ prev
    · simp [hne, ApiCache.clear]
    · simp [hne]

theorem cacheSanitized_ensure_fresh (s : Store) (c : ApiCache)
    (hc : cacheSanitized c) : cacheSanitized (ensure_fresh_cache s c) := by
  rcases ensure_fresh_bootstrap s c with h | h <;> intro p hp
  · exact hc p (h ▸ hp)
  · rw [h] at hp
    exact Option.noConfusion hp

theorem get_media_list_bootstrap (s : Store) (cat : MediaCategory) (c : ApiCache) :
    ((get_media_list s cat c).2).bootstrap = (ensure_fresh_cache s c).bootstrap := by
  simp only [get_media_list]
  cases h : (ensure_fresh_cache s c).mediaList cat with
  | some cached => rfl
  | none => cases cat <;> rfl

theorem get_media_bootstrap (s : Store) (cat : MediaCategory) (id : String) (c : ApiCache) :
    ((get_media s cat id c).2).bootstrap = (ensure_fresh_cache s c).bootstrap := by
  simp only [get_media]
  cases h : alistFind ((ensure_fresh_cache s c).mediaDetails cat) id with
  | some rec => rfl
  | none =>
    cases hg : s.getOf cat id with
    | none => rfl
    | some rec => cases cat <;> rfl

theorem get_comments_bootstrap (s : Store) (id : String) (c : ApiCache) :
    ((get_comments s id c).2).bootstrap = (ensure_fresh_cache s c).bootstrap := by
  simp only [get_comments]
  cases h : alistFind (ensure_fresh_cache s c).comments id <;> rfl

theorem get_subtitles_bootstrap (s : Store) (id : String) (c : ApiCache) :
    ((get_subtitles s id c).2).bootstrap = (ensure_fresh_cache s c).bootstrap := by
  simp only [get_subtitles]
  cases h : alistFind (ensure_fresh_cache s c).subtitles id with
  | some cached => rfl
  | none => cases hg : s.get_subtitles id <;> rfl

theorem get_bootstrap_cache (s : Store) (c : ApiCache) :
    ((get_bootstrap s c).2).bootstrap = some (get_bootstrap s c).1 := by
  simp only [get_bootstrap]
  cases h : (ensure_fresh_cache s c).bootstrap <;> simp [h]

/-- C10: the JSON responses of the list, detail and bootstrap endpoints
never expose on-disk locations: every source of every returned video
record and every subtitle track of the bootstrap payload has `path = None`,
and all cache states reachable from the empty cache keep any memoized
bootstrap payload sanitized. -/
theorem api_responses_hide_paths (s : Store) (c : ApiCache) (hc : cacheSanitized c) :
    cacheSanitized ApiCache.new ∧
    (∀ cat, (∀ rec ∈ (list_media_endpoint s cat c).1, ∀ src ∈ rec.sources, src.path = none) ∧
      cacheSanitized (list_media_endpoint s cat c).2) ∧
    (∀ cat id, (∀ rec, (get_media_endpoint s cat id c).1 = some rec →
        ∀ src ∈ rec.sources, src.path = none) ∧
      cacheSanitized (get_media_endpoint s cat id c).2) ∧
    payloadSanitized (get_bootstrap s c).1 ∧
    cacheSanitized (get_bootstrap s c).2 ∧
    (∀ id, cacheSanitized (get_comments s id c).2) ∧
    (∀ id, cacheSanitized (get_subtitles s id c).2) := by
  have hfresh := cacheSanitized_ensure_fresh s c hc
  have hboot : payloadSanitized (get_bootstrap s c).1 := by
    simp only [get_bootstrap]
    cases h : (ensure_fresh_cache s c).bootstrap with
    | some p => exact hfresh p h
    | none =>
      refine ⟨sanitize_video_records_hide_paths _, sanitize_video_records_hide_paths _, ?_⟩
      intro col hcol
      simp only [List.mem_map] at hcol
      obtain ⟨x, _, rfl⟩ := hcol
      exact sanitize_subtitle_collection_hides_paths x
  refine ⟨?_, ?_, ?_, hboot, ?_, ?_, ?_⟩
  · intro p hp
    exact Option.noConfusion hp
  · intro cat
    constructor
    · exact sanitize_video_records_hide_paths _
    · exact cacheSanitized_of_bootstrap_eq _ _ (get_media_list_bootstrap s cat c) hfresh
  · intro cat id
    constructor
    · intro rec hrec
      cases hg : (get_media s cat id c).1 with
      | none => simp [get_media_endpoint, hg] at hrec
      | some x =>
        have : rec = sanitize_video_record x := by
          simp [get_media_endpoint, hg] at hrec
          exact hrec.symm
        rw [this]
        exact sanitize_video_record_hides_paths x
    · exact cacheSanitized_of_bootstrap_eq _ _ (get_media_bootstrap s cat id c) hfresh
  · intro p hp
    rw [get_bootstrap_cache] at hp
    have : p = (get_bootstrap s c).1 := by injection hp.symm
    rw [this]
    exact hboot
  · intro id
    exact cacheSanitized_of_bootstrap_eq _ _ (get_comments_bootstrap s id c) hfresh
  · intro id
    exact cacheSanitized_of_bootstrap_eq _ _ (get_subtitles_bootstrap s id c) hfresh

/-- C10 (witness): a store whose records carry on-disk paths, read through
the empty cache. -/
theorem api_responses_hide_paths_witness :
    (∀ rec ∈ (list_media_endpoint wStoreP MediaCategory.video ApiCache.new).1,
      ∀ src ∈ rec.sources, src.path = none) ∧
    payloadSanitized (get_bootstrap wStoreP ApiCache.new).1 := by
  have h := api_responses_hide_paths wStoreP ApiCache.new
    (fun p hp => Option.noConfusion hp)
  exact ⟨(h.2.1 MediaCategory.video).1, h.2.2.2.1⟩

/-- C5 (counterexample): for a known job whose progress file parses, the
served `message` comes from the progress file, not from the in-memory job
record: a job whose record says `Queued` but whose file says `downloading`
is reported with `downloading`. -/
theorem get_status_message_counterexample :
    get_status [("download-1", c5job)]
        (fun _ => some { progress := 42, message := "downloading" }) "download-1" =
      some { id := "download-1", status := "queued", progress := 42, message := "downloading" } ∧
    c5job.message = "Queued" ∧ ("downloading" : String) ≠ "Queued" := by
  exact ⟨by decide, rfl, by decide⟩

/-- C5 (amended): `getStatus` on an unknown id returns 404 and never
panics; for a known job, `id` and `status` come from the in-memory record
while `progress` *and* `message` come from a fresh read of the job's
progress file on every call, falling back to progress 0 and the in-memory
message only when the file is missing or unparsable. -/
theorem get_status_semantics (jobs : List (String × DownloadJob))
    (readP : String → Option ProgressReport) (id : String) :
    (alistFind jobs id = none →
      get_download_status jobs readP id =
        Except.error { status := 404, message := "download not found" }) ∧
    (∀ job, alistFind jobs id = some job →
      get_status jobs readP id = some
        { id := job.id
          status := job.status.as_str
          progress :=
            match readP job.progress_file with
            | some report => report.progress
            | none => 0
          message :=
            match readP job.progress_file with
            | some report => report.message
            | none => job.message }) := by
  constructor
  · intro h
    simp [get_download_status, get_status, h]
  · intro job h
    simp only [get_status, h]
    cases hp : readP job.progress_file <;> simp [hp]

/-- C5 (witness for the amended theorem): a job with no readable progress
file falls back to the record's message, and an unknown id produces 404. -/
theorem get_status_semantics_witness :
    get_status [("download-1", c5job)] (fun _ => none) "download-1" =
      some { id := "download-1", status := "queued", progress := 0, message := "Queued" } ∧
    get_download_status [] (fun _ => none) "nope" =
      Except.error { status := 404, message := "download not found" } := by
  refine ⟨?_, ?_⟩
  · have h := (get_status_semantics [("download-1", c5job)] (fun _ => none)
      "download-1").2 c5job (by decide)
    exact h.trans (by decide)
  · exact (get_status_semantics [] (fun _ => none) "nope").1 rfl

/-- C6: job ids are `download-{n}` drawn from a single process-wide counter
starting at 1; within the 64-bit life of the counter, the numeric parts are
strictly increasing in draw order and the id strings are pairwise
distinct, so an id is never reused. -/
theorem job_ids_strictly_increasing (k l : Nat) (hkl : k < l) (hl : l < 2 ^ 64 - 1) :
    drawnId 0 = "download-1" ∧
    drawnIdNum k < drawnIdNum l ∧
    drawnId k ≠ drawnId l := by
  have hk : k < 2 ^ 64 - 1 := by omega
  have hnk : drawnIdNum k = 1 + k := counterAfter_eq k hk
  have hnl : drawnIdNum l = 1 + l := counterAfter_eq l hl
  refine ⟨by decide, by omega, ?_⟩
  intro hcontra
  have heq := download_format_injective (drawnIdNum k) (drawnIdNum l) hcontra
  omega

/-- C6 (witness): the first two draws. -/
theorem job_ids_strictly_increasing_witness :
    (0 : Nat) < 1 ∧ (1 : Nat) < 2 ^ 64 - 1 ∧
    drawnIdNum 0 < drawnIdNum 1 ∧ drawnId 0 ≠ drawnId 1 := by
  have h := job_ids_strictly_increasing 0 1 (by omega) (by norm_num)
  exact ⟨by omega, by norm_num, h.2.1, h.2.2⟩

theorem monotoneHistory_queued_running_terminal (t : DownloadStatus)
    (ht : t = DownloadStatus.success ∨ t = DownloadStatus.failed) :
    monotoneHistory [DownloadStatus.queued, DownloadStatus.running, t] := by
  rcases ht with rfl | rfl <;>
    exact ⟨by simp [List.chain'_cons, List.chain'_singleton, DownloadStatus.rank], by decide⟩

/-- C7: along every path of the download tasks, a job's status history
(from its initial Queued through the updates of the owning task) only
moves forward along Queued → Running → (Success | Failed), and once a
terminal status is reached it never changes again. -/
theorem job_status_monotone (run runc : Except String Unit)
    (resolution : Except String String) :
    monotoneHistory (jobHistory (videoJobUpdates run)) ∧
    monotoneHistory (jobHistory (channelJobUpdates resolution runc)) := by
  constructor
  · cases run with
    | ok u => exact monotoneHistory_queued_running_terminal _ (Or.inl rfl)
    | error s => exact monotoneHistory_queued_running_terminal _ (Or.inr rfl)
  · cases resolution with
    | error s => exact monotoneHistory_queued_running_terminal _ (Or.inr rfl)
    | ok u =>
      cases runc with
      | ok v => exact monotoneHistory_queued_running_terminal _ (Or.inl rfl)
      | error s => exact monotoneHistory_queued_running_terminal _ (Or.inr rfl)

/-- C7 (witness): a successful video job and a channel job whose
resolution failed. -/
theorem job_status_monotone_witness :
    monotoneHistory (jobHistory (videoJobUpdates (Except.ok ()))) ∧
    monotoneHistory (jobHistory (channelJobUpdates (Except.error "lookup failed")
      (Except.ok ()))) := by
  have h := job_status_monotone (Except.ok ()) (Except.ok ()) (Except.error "lookup failed")
  exact ⟨h.1, h.2⟩

/-- C8 (counterexample): two records sharing an upload date come back in
*reverse* insertion order (rowid 2 before rowid 1), not in insertion order
as the claim states. -/
theorem listing_tiebreak_counterexample :
    fetch_videos_from c8rows = [sampleRecord "second", sampleRecord "first"] ∧
    claimed_videos_listing c8rows = [sampleRecord "first", sampleRecord "second"] ∧
    fetch_videos_from c8rows ≠ claimed_videos_listing c8rows := by
  exact ⟨by decide, by decide, by decide⟩

/-- C8 (amended): `listVideos()`/`listShorts()` return the table's records
ordered newest-upload-date-first (SQLite NULL dates sorting last under
DESC), with reverse insertion order — larger rowid, i.e. the most recently
inserted record, first — as the tiebreak among records sharing an upload
date. -/
theorem fetch_videos_ordering (rows : List VideoRow) :
    fetch_videos_from rows = (List.insertionSort fetchRowOrder rows).map VideoRow.record ∧
    List.Perm (List.insertionSort fetchRowOrder rows) rows ∧
    List.Sorted fetchRowOrder (List.insertionSort fetchRowOrder rows) ∧
    (∀ a b : VideoRow, fetchRowOrder a b ↔
      (sqliteDateLt b.record.upload_date a.record.upload_date ∨
        (a.record.upload_date = b.record.upload_date ∧ b.rowid ≤ a.rowid))) := by
  exact ⟨rfl, List.perm_insertionSort _ _, List.sorted_insertionSort _ _,
    fun a b => Iff.rfl⟩
